import Mathlib

/-!
# ConfessionVault ledger — shallow embedding

Shallow embedding of the `ConfessionVault` Solidity contract (the
"ConfessionLedger" component): an append-only ledger of confessions with
per-voter upvote deduplication, per-sender submission rate limiting, and an
admin pause flag.

Modelling conventions:
* Addresses, `bytes32` values and `uint256` quantities are `Nat`.
  Solidity 0.8 checked arithmetic reverts on overflow; for the `uint256`
  counters and timestamp sums here an overflow is not reachable from any
  feasible execution, so they are modelled as unbounded `Nat`.  The
  `uint32 voteCount` field is the one counter whose 32-bit bound is
  semantically relevant, so its checked increment is modelled exactly:
  the transaction reverts (arithmetic panic) when the increment would
  exceed `2^32 - 1`.
* `bytes` is `List Nat` (the byte values).
* The FHE ciphertext type `euint32` is opaque to the contract: the
  contract only ever calls `FHE.asEuint32` (encrypt a constant) and
  `FHE.add` (homomorphic addition) on it and never branches on it.  It is
  modelled by a type parameter `C` together with an `EncCap C` capability
  record providing those two operations.  `FHE.allow` is an access-control
  side effect external to the contract state and has no state effect here.
* Solidity mappings are total functions with zero-value defaults; the
  confession mapping is `Nat → Option (Confession C)` where `none` stands
  for the never-written default struct (whose `exists` flag is `false`).
* A reverting call is `Except.error e`: no state is returned, which is the
  EVM's all-or-nothing transaction semantics.  Event emission has no
  effect on contract state and is not modelled.
-/

/-- Revert kinds of the contract, one per distinct `require` / modifier /
panic condition (message text abstracted to the error taxonomy). -/
inductive VaultError where
  | Paused
  | InvalidInput
  | RateLimited
  | NotFound
  | AlreadyVoted
  | Unauthorized
  | Overflow
deriving DecidableEq, Repr

/-- Opaque encrypted-integer capability: encrypt a constant and add
homomorphically.  The ledger never decrypts. -/
structure EncCap (C : Type) where
  encrypt : Nat → C
  add : C → C → C

/-- Transparent (test-only) instantiation of the capability: the
"ciphertext" is the plaintext residue modulo `2^32` (the `euint32` value
space), so decryption is the identity. -/
def transparentCap : EncCap Nat :=
  { encrypt := fun v => v % 2 ^ 32
    add := fun a b => (a + b) % 2 ^ 32 }

/-- The `Confession` struct of the contract. -/
structure Confession (C : Type) where
  message : List Nat
  encryptedVotes : C
  voteCount : Nat
  createdAt : Nat
  author : Nat
  ipfsCID : Nat
  «exists» : Bool
deriving Repr

/-- The contract storage: the confession mapping, the upvote relation, the
rate-limit tracker, the counter, the cooldown config, the pause flag and
the `Ownable` owner. -/
structure VaultState (C : Type) where
  confessions : Nat → Option (Confession C)
  hasUpvoted : Nat → Nat → Bool
  lastSubmissionTime : Nat → Nat
  confessionCount : Nat
  rateLimitCooldown : Nat
  paused : Bool
  owner : Nat

/-- State right after deployment: empty mappings, zero counter, the
declared default cooldown of 300 seconds, unpaused, owner = deployer. -/
def initialState (deployer : Nat) : VaultState C :=
  { confessions := fun _ => none
    hasUpvoted := fun _ _ => false
    lastSubmissionTime := fun _ => 0
    confessionCount := 0
    rateLimitCooldown := 300
    paused := false
    owner := deployer }

/-- Whether `confessions[_id].exists` holds (the never-written default
struct has `exists = false`). -/
def confessionExists (s : VaultState C) (id : Nat) : Bool :=
  match s.confessions id with
  | none => false
  | some c => c.«exists»

/-- Transaction `submitConfession(bytes _message)`: checks `notPaused`, non-empty
message, and the rate-limit window, then appends confession
`confessionCount + 1` and records the sender's submission time.  Returns
the new id.  `createdAt` stores `uint64(block.timestamp)`, a truncating
cast. -/
def submitConfession (cap : EncCap C) (s : VaultState C)
    (sender now : Nat) (message : List Nat) :
    Except VaultError (Nat × VaultState C) :=
  if s.paused then .error .Paused
  else if message.length = 0 then .error .InvalidInput
  else if now < s.lastSubmissionTime sender + s.rateLimitCooldown then
    .error .RateLimited
  else
    let id := s.confessionCount + 1
    let c : Confession C :=
      { message := message
        encryptedVotes := cap.encrypt 0
        voteCount := 0
        createdAt := now % 2 ^ 64
        author := sender
        ipfsCID := 0
        «exists» := true }
    .ok (id,
      { s with
        confessions := fun j => if j = id then some c else s.confessions j
        confessionCount := id
        lastSubmissionTime := fun a =>
          if a = sender then now else s.lastSubmissionTime a })

/-- Transaction `upvote(uint256 _confessionId)`: checks `notPaused`, existence and
that the sender has not voted yet, then adds an encrypted one to the
encrypted counter, increments the public counter (checked `uint32`
increment) and marks the sender as having voted. -/
def upvote (cap : EncCap C) (s : VaultState C) (sender id : Nat) :
    Except VaultError (VaultState C) :=
  if s.paused then .error .Paused
  else
    match s.confessions id with
    | none => .error .NotFound
    | some c =>
      if c.«exists» = false then .error .NotFound
      else if s.hasUpvoted id sender then .error .AlreadyVoted
      else if 2 ^ 32 ≤ c.voteCount + 1 then .error .Overflow
      else
        let newVotes := cap.add c.encryptedVotes (cap.encrypt 1)
        .ok
          { s with
            confessions := fun j =>
              if j = id then
                some { c with encryptedVotes := newVotes
                              voteCount := c.voteCount + 1 }
              else s.confessions j
            hasUpvoted := fun j a =>
              if j = id ∧ a = sender then true else s.hasUpvoted j a }

/-- Query `getConfession(uint256 _id)`: read-only, requires the existence
flag. -/
def getConfession (s : VaultState C) (id : Nat) :
    Except VaultError (Confession C) :=
  match s.confessions id with
  | none => .error .NotFound
  | some c => if c.«exists» = false then .error .NotFound else .ok c

/-- Query `hasUserUpvoted(uint256, address)`: read-only, total. -/
def hasUserUpvoted (s : VaultState C) (id voter : Nat) : Bool :=
  s.hasUpvoted id voter

/-- Query `getRemainingCooldown(address _user)`: read-only; seconds until the
next allowed submission, 0 when allowed now. -/
def getRemainingCooldown (s : VaultState C) (user now : Nat) : Nat :=
  let nextAllowedTime := s.lastSubmissionTime user + s.rateLimitCooldown
  if nextAllowedTime ≤ now then 0 else nextAllowedTime - now

/-- Admin `updateRateLimit(uint256 _newCooldown)`: `onlyOwner`, bounded by 3600
seconds. -/
def updateRateLimit (s : VaultState C) (sender newCooldown : Nat) :
    Except VaultError (VaultState C) :=
  if sender ≠ s.owner then .error .Unauthorized
  else if 3600 < newCooldown then .error .InvalidInput
  else .ok { s with rateLimitCooldown := newCooldown }

/-- Admin `togglePause()`: `onlyOwner`, flips the pause flag. -/
def togglePause (s : VaultState C) (sender : Nat) :
    Except VaultError (VaultState C) :=
  if sender ≠ s.owner then .error .Unauthorized
  else .ok { s with paused := !s.paused }

/-- Admin `emergencyPause()`: `onlyOwner`, sets the pause flag. -/
def emergencyPause (s : VaultState C) (sender : Nat) :
    Except VaultError (VaultState C) :=
  if sender ≠ s.owner then .error .Unauthorized
  else .ok { s with paused := true }

/-- Admin `unpause()`: `onlyOwner`, clears the pause flag. -/
def unpause (s : VaultState C) (sender : Nat) :
    Except VaultError (VaultState C) :=
  if sender ≠ s.owner then .error .Unauthorized
  else .ok { s with paused := false }

/-- Author call `updateIPFSCID(uint256 _confessionId, bytes32 _ipfsCID)`: requires
existence and `author == msg.sender`, then overwrites the `ipfsCID`
field.  Note: this function has no `notPaused` modifier in the source. -/
def updateIPFSCID (s : VaultState C) (sender id cid : Nat) :
    Except VaultError (VaultState C) :=
  match s.confessions id with
  | none => .error .NotFound
  | some c =>
    if c.«exists» = false then .error .NotFound
    else if c.author ≠ sender then .error .Unauthorized
    else
      .ok { s with
        confessions := fun j =>
          if j = id then some { c with ipfsCID := cid }
          else s.confessions j }

/-- One external transaction request against the ledger. -/
inductive Call where
  | submit (sender now : Nat) (message : List Nat)
  | vote (sender : Nat) (id : Nat)
  | setCooldown (sender : Nat) (newCooldown : Nat)
  | toggle (sender : Nat)
  | epause (sender : Nat)
  | unp (sender : Nat)
  | setCID (sender : Nat) (id cid : Nat)
deriving Repr

/-- Whether a call is one of the admin pause toggles. -/
def Call.isPauseToggle : Call → Bool
  | .toggle _ => true
  | .epause _ => true
  | .unp _ => true
  | _ => false

/-- Transaction semantics of a call: a revert leaves the pre-state in
place (EVM atomicity) and reports the revert kind. -/
def applyCall (cap : EncCap C) (s : VaultState C) :
    Call → VaultState C × Option VaultError
  | .submit sender now message =>
    match submitConfession cap s sender now message with
    | .ok (_, s2) => (s2, none)
    | .error e => (s, some e)
  | .vote sender id =>
    match upvote cap s sender id with
    | .ok s2 => (s2, none)
    | .error e => (s, some e)
  | .setCooldown sender v =>
    match updateRateLimit s sender v with
    | .ok s2 => (s2, none)
    | .error e => (s, some e)
  | .toggle sender =>
    match togglePause s sender with
    | .ok s2 => (s2, none)
    | .error e => (s, some e)
  | .epause sender =>
    match emergencyPause s sender with
    | .ok s2 => (s2, none)
    | .error e => (s, some e)
  | .unp sender =>
    match unpause s sender with
    | .ok s2 => (s2, none)
    | .error e => (s, some e)
  | .setCID sender id cid =>
    match updateIPFSCID s sender id cid with
    | .ok s2 => (s2, none)
    | .error e => (s, some e)

/-- Public vote counter of record `id` (0 for the never-written default
struct). -/
def voteCountAt (s : VaultState C) (id : Nat) : Nat :=
  match s.confessions id with
  | none => 0
  | some c => c.voteCount

/-- Run a list of `submitConfession` requests `(sender, now, message)` in
order, skipping reverted calls, and collect the ids returned by the
successful calls. -/
def runSubmits (cap : EncCap C) (s : VaultState C) :
    List (Nat × Nat × List Nat) → VaultState C × List Nat
  | [] => (s, [])
  | (sender, now, m) :: rest =>
    match submitConfession cap s sender now m with
    | .ok (id, s2) =>
      let r := runSubmits cap s2 rest
      (r.1, id :: r.2)
    | .error _ => runSubmits cap s rest

/-- Run one `upvote` call on confession `id` per listed voter, stopping at
the first revert; the flag reports whether every call succeeded. -/
def runUpvotes (cap : EncCap C) (s : VaultState C) (id : Nat) :
    List Nat → VaultState C × Bool
  | [] => (s, true)
  | v :: rest =>
    match upvote cap s v id with
    | .ok s2 => runUpvotes cap s2 id rest
    | .error _ => (s, false)

/-- The id high-water-mark invariant: the existing confession ids are
exactly `1..=confessionCount`. -/
def validIdRange (s : VaultState C) : Prop :=
  ∀ j, confessionExists s j = true ↔ 1 ≤ j ∧ j ≤ s.confessionCount

/-! Concrete fixture used by the scenario claim and the witnesses: the
deployer is address 1, alice is address 2, bob is address 3. -/

def deployerAddr : Nat := 1

def alice : Nat := 2

def bob : Nat := 3

/-- UTF-8 bytes of the string "hello world test" (16 bytes). -/
def helloWorldTest : List Nat :=
  [104, 101, 108, 108, 111, 32, 119, 111, 114, 108, 100, 32, 116, 101, 115, 116]

/-- Fresh ledger deployed by address 1. -/
def scn0 : VaultState Nat := initialState deployerAddr

/-- After alice submits "hello world test" at time 300. -/
def scn1 : VaultState Nat :=
  (applyCall transparentCap scn0 (.submit alice 300 helloWorldTest)).1

/-- After bob upvotes confession 1. -/
def scn2 : VaultState Nat :=
  (applyCall transparentCap scn1 (.vote bob 1)).1

/-- After the owner engages the emergency pause. -/
def scnPaused : VaultState Nat :=
  (applyCall transparentCap scn2 (.epause deployerAddr)).1

/-! ## Characterisation lemmas for the two core transactions -/

/-- Full characterisation of a successful `submitConfession` call: the
preconditions held and the post-state is the pre-state with the new
record appended, the counter bumped and the sender's submission time
updated. -/
theorem submit_ok_spec {C : Type} (cap : EncCap C) (s : VaultState C)
    (a t : Nat) (m : List Nat) (id : Nat) (s2 : VaultState C)
    (h : submitConfession cap s a t m = .ok (id, s2)) :
    s.paused = false ∧ m.length ≠ 0 ∧
    s.lastSubmissionTime a + s.rateLimitCooldown ≤ t ∧
    id = s.confessionCount + 1 ∧
    s2 = { s with
      confessions := fun j =>
        if j = s.confessionCount + 1 then
          some { message := m
                 encryptedVotes := cap.encrypt 0
                 voteCount := 0
                 createdAt := t % 2 ^ 64
                 author := a
                 ipfsCID := 0
                 «exists» := true }
        else s.confessions j
      confessionCount := s.confessionCount + 1
      lastSubmissionTime := fun x =>
        if x = a then t else s.lastSubmissionTime x } := by
  unfold submitConfession at h
  split at h
  · cases h
  · split at h
    · cases h
    · split at h
      · cases h
      · simp only [Except.ok.injEq, Prod.mk.injEq] at h
        refine ⟨by simp_all, by assumption, by omega, h.1.symm, h.2.symm⟩

/-- Full characterisation of a successful `upvote` call: the preconditions
held and the post-state only rewrites the target record's vote fields and
the one upvote-relation entry. -/
theorem upvote_ok_spec {C : Type} (cap : EncCap C) (s : VaultState C)
    (v id : Nat) (s2 : VaultState C)
    (h : upvote cap s v id = .ok s2) :
    ∃ c, s.confessions id = some c ∧ s.paused = false ∧
      c.«exists» = true ∧ s.hasUpvoted id v = false ∧
      c.voteCount + 1 < 2 ^ 32 ∧
      s2 = { s with
        confessions := fun j =>
          if j = id then
            some { c with
              encryptedVotes := cap.add c.encryptedVotes (cap.encrypt 1)
              voteCount := c.voteCount + 1 }
          else s.confessions j
        hasUpvoted := fun j a =>
          if j = id ∧ a = v then true else s.hasUpvoted j a } := by
  unfold upvote at h
  split at h
  · cases h
  · split at h
    · cases h
    · rename_i c hc
      split at h
      · cases h
      · split at h
        · cases h
        · split at h
          · cases h
          · refine ⟨c, hc, by simp_all, by simp_all, by simp_all, by omega,
              (Except.ok.injEq _ _ ▸ h).symm⟩

/-- A successful submission extends the valid-id range by exactly the new
id. -/
theorem submit_preserves_validIdRange {C : Type} (cap : EncCap C)
    (s : VaultState C) (a t : Nat) (m : List Nat) (id : Nat)
    (s2 : VaultState C) (h : submitConfession cap s a t m = .ok (id, s2))
    (hv : validIdRange s) : validIdRange s2 := by
  obtain ⟨-, -, -, -, hs2⟩ := submit_ok_spec cap s a t m id s2 h
  subst hs2
  intro j
  by_cases hj : j = s.confessionCount + 1
  · subst hj
    simp [confessionExists]
  · have := hv j
    simp only [confessionExists] at this ⊢
    simp only [hj, if_false]
    constructor
    · intro hex
      have := this.mp hex
      omega
    · intro hle
      exact this.mpr (by omega)

/-- Generalised consecutive-id lemma: from any state, a run of submission
requests returns the consecutive ids starting right after the current
counter, the counter advances by the number of successes, and the
valid-id-range invariant is preserved. -/
theorem runSubmits_spec {C : Type} (cap : EncCap C)
    (reqs : List (Nat × Nat × List Nat)) :
    ∀ s : VaultState C,
      (runSubmits cap s reqs).2 =
        List.range' (s.confessionCount + 1) (runSubmits cap s reqs).2.length ∧
      (runSubmits cap s reqs).1.confessionCount =
        s.confessionCount + (runSubmits cap s reqs).2.length ∧
      (validIdRange s → validIdRange (runSubmits cap s reqs).1) := by
  induction reqs with
  | nil =>
    intro s
    simp [runSubmits]
  | cons req rest ih =>
    intro s
    obtain ⟨sender, now, m⟩ := req
    cases h : submitConfession cap s sender now m with
    | error e =>
      simp only [runSubmits, h]
      exact ih s
    | ok p =>
      obtain ⟨id, s2⟩ := p
      obtain ⟨hids, hcnt, hinv⟩ := ih s2
      obtain ⟨-, -, -, hid, -⟩ := submit_ok_spec cap s sender now m id s2 h
      have hcnt2 : s2.confessionCount = s.confessionCount + 1 := by
        obtain ⟨-, -, -, -, hs2⟩ := submit_ok_spec cap s sender now m id s2 h
        subst hs2; rfl
      simp only [runSubmits, h, List.length_cons]
      refine ⟨?_, by omega, fun hv => hinv (submit_preserves_validIdRange cap s sender now m id s2 h hv)⟩
      rw [List.range'_succ]
      subst hid
      rw [hids, hcnt2]
      simp

/-- C1: for every sequence of `submitConfession` calls run from the
initial ledger state, the ids returned by the successful calls are exactly
`1, 2, 3, …` in call order with no gaps and no reuse; `confessionCount`
equals the number of confessions created, and the existing confession ids
are exactly `1..=confessionCount` (the counter is the high-water mark of
valid ids). -/
theorem submit_ids_consecutive {C : Type} (cap : EncCap C) (deployer : Nat)
    (reqs : List (Nat × Nat × List Nat)) :
    (runSubmits cap (initialState deployer) reqs).2 =
      List.range' 1 (runSubmits cap (initialState deployer) reqs).2.length ∧
    (runSubmits cap (initialState deployer) reqs).1.confessionCount =
      (runSubmits cap (initialState deployer) reqs).2.length ∧
    validIdRange (runSubmits cap (initialState deployer) reqs).1 := by
  obtain ⟨h1, h2, h3⟩ := runSubmits_spec cap reqs (initialState deployer)
  refine ⟨h1, by simpa [initialState] using h2, h3 ?_⟩
  intro j
  simp [confessionExists, initialState]
  omega

/-- Generalised upvote-run lemma under the transparent capability: if the
target record's ciphertext currently decrypts to its public counter, then
after any all-successful run of upvotes both counters have grown by the
number of voters, and the voters were necessarily pairwise distinct and
fresh. -/
theorem runUpvotes_transparent_spec (id : Nat) (voters : List Nat) :
    ∀ s : VaultState Nat, (runUpvotes transparentCap s id voters).2 = true →
      ∀ c : Confession Nat, s.confessions id = some c →
        c.encryptedVotes = c.voteCount →
        (∃ c', (runUpvotes transparentCap s id voters).1.confessions id = some c' ∧
          c'.voteCount = c.voteCount + voters.length ∧
          c'.encryptedVotes = c'.voteCount) ∧
        voters.Nodup ∧
        (∀ w, s.hasUpvoted id w = true → w ∉ voters) := by
  induction voters with
  | nil =>
    intro s _ c hc henc
    exact ⟨⟨c, hc, by simp, henc⟩, by simp, by simp⟩
  | cons v rest ih =>
    intro s hok c hc henc
    cases h : upvote transparentCap s v id with
    | error e => simp [runUpvotes, h] at hok
    | ok s2 =>
      simp only [runUpvotes, h] at hok ⊢
      obtain ⟨c0, hc0, hpause, hex, hnv, hlt, hs2⟩ :=
        upvote_ok_spec transparentCap s v id s2 h
      rw [hc] at hc0
      injection hc0 with hcc
      subst hcc
      have hc2 : s2.confessions id =
          some { c with
            encryptedVotes :=
              transparentCap.add c.encryptedVotes (transparentCap.encrypt 1)
            voteCount := c.voteCount + 1 } := by
        subst hs2; simp
      have henc2 :
          transparentCap.add c.encryptedVotes (transparentCap.encrypt 1) =
            c.voteCount + 1 := by
        simp only [transparentCap, henc]
        omega
      obtain ⟨⟨c', hc', hcount, henc'⟩, hnodup, hfresh⟩ :=
        ih s2 hok _ hc2 (by simpa using henc2)
      have hvoted2 : ∀ w, s2.hasUpvoted id w =
          if w = v then true else s.hasUpvoted id w := by
        intro w; subst hs2; simp
      have hvmem : v ∉ rest := by
        apply hfresh
        rw [hvoted2]; simp
      refine ⟨⟨c', hc', by simp at hcount ⊢; omega, henc'⟩,
        List.nodup_cons.mpr ⟨hvmem, hnodup⟩, ?_⟩
      intro w hw
      have hwv : w ≠ v := fun he => by rw [he, hnv] at hw; cases hw
      have : w ∉ rest := by
        apply hfresh
        rw [hvoted2]
        simp [hwv, hw]
      simp [hwv, this]

/-- C2: for a confession created by `submitConfession` and then given `k`
successful upvotes, the voters are `k` distinct identities, the public
`voteCount` equals exactly `k`, and under the transparent (test-only)
encryption capability the decrypted value of the record's encrypted vote
counter is that same `k`. -/
theorem upvote_counters_match (s : VaultState Nat) (a t : Nat)
    (m : List Nat) (id : Nat) (s1 : VaultState Nat) (voters : List Nat)
    (h1 : submitConfession transparentCap s a t m = .ok (id, s1))
    (h2 : (runUpvotes transparentCap s1 id voters).2 = true) :
    voters.Nodup ∧
    ∃ c', (runUpvotes transparentCap s1 id voters).1.confessions id = some c' ∧
      c'.voteCount = voters.length ∧
      c'.encryptedVotes = voters.length := by
  obtain ⟨-, -, -, hid, hs1⟩ := submit_ok_spec transparentCap s a t m id s1 h1
  have hc : s1.confessions id =
      some { message := m
             encryptedVotes := transparentCap.encrypt 0
             voteCount := 0
             createdAt := t % 2 ^ 64
             author := a
             ipfsCID := 0
             «exists» := true } := by
    subst hs1; subst hid; simp
  obtain ⟨⟨c', hc', hcount, henc'⟩, hnodup, -⟩ :=
    runUpvotes_transparent_spec id voters s1 h2 _ hc (by simp [transparentCap])
  simp only [Nat.zero_add] at hcount
  exact ⟨hnodup, c', hc', hcount, by rw [henc', hcount]⟩

/-- Witness for C2 on a concrete run: alice's confession upvoted by bob
and by address 4. -/
theorem upvote_counters_match_witness :
    [bob, 4].Nodup ∧
    ∃ c', (runUpvotes transparentCap scn1 1 [bob, 4]).1.confessions 1 = some c' ∧
      c'.voteCount = 2 ∧ c'.encryptedVotes = 2 :=
  upvote_counters_match scn0 alice 300 helloWorldTest 1 scn1 [bob, 4]
    (by rfl) (by rfl)

/-- C3: once a voter has successfully upvoted a confession, a second
`upvote` by the same voter on the same confession reverts with
`AlreadyVoted` and the transaction leaves the entire ledger state — in
particular that record's public vote counter — unchanged. -/
theorem second_upvote_already_voted {C : Type} (cap : EncCap C)
    (s : VaultState C) (v id : Nat) (s2 : VaultState C)
    (h : upvote cap s v id = .ok s2) :
    upvote cap s2 v id = .error .AlreadyVoted ∧
    applyCall cap s2 (.vote v id) = (s2, some .AlreadyVoted) ∧
    voteCountAt (applyCall cap s2 (.vote v id)).1 id = voteCountAt s2 id := by
  obtain ⟨c, hc, hpause, hex, hnv, hlt, hs2⟩ := upvote_ok_spec cap s v id s2 h
  have hfail : upvote cap s2 v id = .error .AlreadyVoted := by
    subst hs2
    unfold upvote
    simp [hpause, hex]
  refine ⟨hfail, ?_, ?_⟩ <;> simp [applyCall, hfail]

/-- Witness for C3: bob's second upvote of confession 1 in the concrete
scenario reverts with `AlreadyVoted` and changes nothing. -/
theorem second_upvote_already_voted_witness :
    upvote transparentCap scn2 bob 1 = .error .AlreadyVoted ∧
    applyCall transparentCap scn2 (.vote bob 1) = (scn2, some .AlreadyVoted) ∧
    voteCountAt (applyCall transparentCap scn2 (.vote bob 1)).1 1 =
      voteCountAt scn2 1 :=
  second_upvote_already_voted transparentCap scn1 bob 1 scn2 (by rfl)

/-- C4: after a successful submission by a caller at time `t1`, a second
submission by the same caller with a non-empty message at time `t2 ≥ t1`
reverts with `RateLimited` when `t2 - t1` is below the configured
cooldown, and succeeds (returning the next id) when `t2 - t1` reaches the
cooldown. -/
theorem submit_rate_limit_window {C : Type} (cap : EncCap C)
    (s : VaultState C) (a t1 t2 : Nat) (m1 m2 : List Nat) (id : Nat)
    (s1 : VaultState C)
    (h1 : submitConfession cap s a t1 m1 = .ok (id, s1))
    (hm2 : m2.length ≠ 0) (ht : t1 ≤ t2) :
    (t2 - t1 < s.rateLimitCooldown →
      submitConfession cap s1 a t2 m2 = .error .RateLimited) ∧
    (s.rateLimitCooldown ≤ t2 - t1 →
      ∃ s2, submitConfession cap s1 a t2 m2 = .ok (id + 1, s2)) := by
  obtain ⟨hpause, -, -, hid, hs1⟩ := submit_ok_spec cap s a t1 m1 id s1 h1
  subst hs1
  subst hid
  constructor
  · intro hlt
    have hcond : t2 < t1 + s.rateLimitCooldown := by omega
    unfold submitConfession
    simp [hpause, hm2, hcond]
  · intro hge
    have hcond : ¬ t2 < t1 + s.rateLimitCooldown := by omega
    obtain ⟨⟨pid, s2⟩, hp⟩ :
        ∃ p, submitConfession cap
          { s with
            confessions := fun j =>
              if j = s.confessionCount + 1 then
                some { message := m1
                       encryptedVotes := cap.encrypt 0
                       voteCount := 0
                       createdAt := t1 % 2 ^ 64
                       author := a
                       ipfsCID := 0
                       «exists» := true }
              else s.confessions j
            confessionCount := s.confessionCount + 1
            lastSubmissionTime := fun x =>
              if x = a then t1 else s.lastSubmissionTime x } a t2 m2 = .ok p := by
      unfold submitConfession
      rw [if_neg (by simp [hpause]), if_neg (by simpa using hm2),
        if_neg (by simpa using hcond)]
      exact ⟨_, rfl⟩
    obtain ⟨-, -, -, hpid, -⟩ := submit_ok_spec cap _ a t2 m2 pid s2 hp
    exact ⟨s2, by rw [hp, hpid]⟩

/-- Witness for C4: alice submitted at time 300 with the default 300s
cooldown, so a retry at time 400 is inside the window and a retry at
time 400 would succeed only if the cooldown were at most 100. -/
theorem submit_rate_limit_window_witness :
    (400 - 300 < scn0.rateLimitCooldown →
      submitConfession transparentCap scn1 alice 400 [104] =
        .error .RateLimited) ∧
    (scn0.rateLimitCooldown ≤ 400 - 300 →
      ∃ s2, submitConfession transparentCap scn1 alice 400 [104] =
        .ok (1 + 1, s2)) :=
  submit_rate_limit_window transparentCap scn0 alice 300 400 helloWorldTest
    [104] 1 scn1 (by rfl) (by decide) (by decide)

/-- Characterisation of a successful `updateRateLimit` call. -/
theorem updateRateLimit_ok_spec {C : Type} (s : VaultState C)
    (a v : Nat) (s2 : VaultState C) (h : updateRateLimit s a v = .ok s2) :
    a = s.owner ∧ v ≤ 3600 ∧ s2 = { s with rateLimitCooldown := v } := by
  unfold updateRateLimit at h
  split at h
  · cases h
  · split at h
    · cases h
    · refine ⟨by simp_all, by omega, ((Except.ok.injEq _ _).mp h).symm⟩

/-- Characterisation of a successful `updateIPFSCID` call. -/
theorem updateIPFSCID_ok_spec {C : Type} (s : VaultState C)
    (a id cid : Nat) (s2 : VaultState C)
    (h : updateIPFSCID s a id cid = .ok s2) :
    ∃ c, s.confessions id = some c ∧ c.«exists» = true ∧ c.author = a ∧
      s2 = { s with
        confessions := fun j =>
          if j = id then some { c with ipfsCID := cid }
          else s.confessions j } := by
  unfold updateIPFSCID at h
  split at h
  · cases h
  · rename_i c hc
    split at h
    · cases h
    · split at h
      · cases h
      · exact ⟨c, hc, by simp_all, by simp_all,
          ((Except.ok.injEq _ _).mp h).symm⟩

/-- C5: in any state with the pause flag engaged, every `submitConfession`
and every `upvote` reverts with `Paused`; the flag stays engaged across
every call that is not one of the admin pause toggles (so the block lasts
until `unpause`/`togglePause`); and all read-only operations
(`getConfession`, `hasUserUpvoted`, `getRemainingCooldown`,
`confessionCount`) are unaffected by the value of the pause flag. -/
theorem pause_blocks_mutations_until_unpause {C : Type} (cap : EncCap C)
    (s : VaultState C) (hp : s.paused = true) :
    (∀ a t m, submitConfession cap s a t m = .error .Paused) ∧
    (∀ v id, upvote cap s v id = .error .Paused) ∧
    (∀ c : Call, c.isPauseToggle = false →
      ((applyCall cap s c).1).paused = true) ∧
    (∀ b id, getConfession { s with paused := b } id = getConfession s id) ∧
    (∀ b id voter, hasUserUpvoted { s with paused := b } id voter =
      hasUserUpvoted s id voter) ∧
    (∀ b u t, getRemainingCooldown { s with paused := b } u t =
      getRemainingCooldown s u t) ∧
    (∀ b, ({ s with paused := b } : VaultState C).confessionCount =
      s.confessionCount) := by
  have hsub : ∀ a t m, submitConfession cap s a t m = .error .Paused := by
    intro a t m; unfold submitConfession; simp [hp]
  have hvote : ∀ v id, upvote cap s v id = .error .Paused := by
    intro v id; unfold upvote; simp [hp]
  refine ⟨hsub, hvote, ?_, fun b id => rfl, fun b id voter => rfl,
    fun b u t => rfl, fun b => rfl⟩
  intro c hc
  cases c with
  | submit a t m => simp [applyCall, hsub, hp]
  | vote v id => simp [applyCall, hvote, hp]
  | setCooldown a v =>
    cases h : updateRateLimit s a v with
    | error e => simp [applyCall, h, hp]
    | ok s2 =>
      obtain ⟨-, -, hs2⟩ := updateRateLimit_ok_spec s a v s2 h
      subst hs2
      simp [applyCall, h, hp]
  | toggle a => simp [Call.isPauseToggle] at hc
  | epause a => simp [Call.isPauseToggle] at hc
  | unp a => simp [Call.isPauseToggle] at hc
  | setCID a id cid =>
    cases h : updateIPFSCID s a id cid with
    | error e => simp [applyCall, h, hp]
    | ok s2 =>
      obtain ⟨c, -, -, -, hs2⟩ := updateIPFSCID_ok_spec s a id cid s2 h
      subst hs2
      simp [applyCall, h, hp]

/-- Witness for C5 at the concrete paused scenario state. -/
theorem pause_blocks_mutations_until_unpause_witness :
    (∀ a t m, submitConfession transparentCap scnPaused a t m =
      .error .Paused) ∧
    (∀ v id, upvote transparentCap scnPaused v id = .error .Paused) ∧
    (∀ c : Call, c.isPauseToggle = false →
      ((applyCall transparentCap scnPaused c).1).paused = true) ∧
    (∀ b id, getConfession { scnPaused with paused := b } id =
      getConfession scnPaused id) ∧
    (∀ b id voter, hasUserUpvoted { scnPaused with paused := b } id voter =
      hasUserUpvoted scnPaused id voter) ∧
    (∀ b u t, getRemainingCooldown { scnPaused with paused := b } u t =
      getRemainingCooldown scnPaused u t) ∧
    (∀ b, ({ scnPaused with paused := b } : VaultState Nat).confessionCount =
      scnPaused.confessionCount) :=
  pause_blocks_mutations_until_unpause transparentCap scnPaused (by rfl)

/-- Counterexample for C6: in a reachable paused state (alice submitted,
bob upvoted, the owner engaged the emergency pause), the state-mutating
`updateIPFSCID` call by the author does NOT fail: it succeeds and changes
the record's `ipfsCID` from 0 to 7, because the function lacks the
`notPaused` modifier. -/
theorem pause_gate_counterexample :
    scnPaused.paused = true ∧
    (applyCall transparentCap scnPaused (.setCID alice 1 7)).2 = none ∧
    ((applyCall transparentCap scnPaused (.setCID alice 1 7)).1.confessions 1).map
      Confession.ipfsCID = some 7 ∧
    (scnPaused.confessions 1).map Confession.ipfsCID = some 0 :=
  ⟨rfl, rfl, rfl, rfl⟩

/-- C6 (amended): the pause circuit breaker gates exactly the two
user-facing mutating operations: while paused, every `submitConfession`
and every `upvote` reverts with `Paused`, but `updateIPFSCID` is not
pause-gated (the author of an existing confession can still set its IPFS
CID) and neither is the admin `updateRateLimit` (the owner can still
reconfigure the cooldown). -/
theorem pause_gates_only_submit_and_upvote {C : Type} (cap : EncCap C)
    (s : VaultState C) (hp : s.paused = true) :
    (∀ a t m, submitConfession cap s a t m = .error .Paused) ∧
    (∀ v id, upvote cap s v id = .error .Paused) ∧
    (∀ a id cid (c : Confession C), s.confessions id = some c →
      c.«exists» = true → c.author = a →
      ∃ s2, updateIPFSCID s a id cid = .ok s2) ∧
    (∀ v, v ≤ 3600 → ∃ s2, updateRateLimit s s.owner v = .ok s2) := by
  refine ⟨?_, ?_, ?_, ?_⟩
  · intro a t m; unfold submitConfession; simp [hp]
  · intro v id; unfold upvote; simp [hp]
  · intro a id cid c hc hex hauth
    unfold updateIPFSCID
    rw [hc]
    simp [hex, hauth]
  · intro v hv
    have hnl : ¬ 3600 < v := by omega
    unfold updateRateLimit
    simp [hnl]

/-- Witness for the amended C6 at the concrete paused scenario state. -/
theorem pause_gates_only_submit_and_upvote_witness :
    (∀ a t m, submitConfession transparentCap scnPaused a t m =
      .error .Paused) ∧
    (∀ v id, upvote transparentCap scnPaused v id = .error .Paused) ∧
    (∀ a id cid (c : Confession Nat), scnPaused.confessions id = some c →
      c.«exists» = true → c.author = a →
      ∃ s2, updateIPFSCID scnPaused a id cid = .ok s2) ∧
    (∀ v, v ≤ 3600 →
      ∃ s2, updateRateLimit scnPaused scnPaused.owner v = .ok s2) :=
  pause_gates_only_submit_and_upvote transparentCap scnPaused (by rfl)

/-- Counterexample for C7: the scenario's message "hello world test" is 16
bytes, not 17; and with the execution clock starting at `t = 0`, alice's
very first submission does not return id 1 — it reverts with
`RateLimited`, because a fresh address has `lastSubmissionTime = 0` and
the code requires `now >= 0 + 300`.  (Her remaining cooldown at `t = 0`
is the full 300 seconds.) -/
theorem scenario_counterexample :
    helloWorldTest.length = 16 ∧ helloWorldTest.length ≠ 17 ∧
    submitConfession transparentCap scn0 alice 0 helloWorldTest =
      .error .RateLimited ∧
    getRemainingCooldown scn0 alice 0 = 300 :=
  ⟨by decide, by decide, rfl, rfl⟩

/-- C7 (amended): the scenario runs verbatim once the clock is based at
`t = 300` (the smallest time a fresh address may submit under the default
300s cooldown) and the message's length is read as its true 16 bytes:
alice's submission of "hello world test" at `t = 300` returns id 1 with
`createdAt = 300` and `voteCount = 0`; bob's upvote of id 1 brings
`voteCount` to 1 with `hasUserUpvoted(1, bob) = true`; bob's second
upvote reverts with `AlreadyVoted`; alice's second submission at
`t = 400` (100 seconds later) reverts with `RateLimited` with 200 seconds
of cooldown remaining; and alice's submission at `t = 601` succeeds,
returning id 2. -/
theorem scenario_trace :
    submitConfession transparentCap scn0 alice 300 helloWorldTest =
      .ok (1, scn1) ∧
    (scn1.confessions 1).map Confession.createdAt = some 300 ∧
    (scn1.confessions 1).map Confession.voteCount = some 0 ∧
    upvote transparentCap scn1 bob 1 = .ok scn2 ∧
    (scn2.confessions 1).map Confession.voteCount = some 1 ∧
    hasUserUpvoted scn2 1 bob = true ∧
    upvote transparentCap scn2 bob 1 = .error .AlreadyVoted ∧
    submitConfession transparentCap scn2 alice 400 helloWorldTest =
      .error .RateLimited ∧
    getRemainingCooldown scn2 alice 400 = 200 ∧
    ∃ s5, submitConfession transparentCap scn2 alice 601 helloWorldTest =
      .ok (2, s5) :=
  ⟨rfl, rfl, rfl, rfl, rfl, rfl, rfl, rfl, rfl, ⟨_, rfl⟩⟩

/-- C8: called by the owner, `updateRateLimit(3601)` reverts with
`InvalidInput` and leaves the configuration (indeed the whole state)
unchanged, `updateRateLimit(3600)` succeeds and sets the cooldown to
3600, and in general the owner's call succeeds exactly when the argument
is at most 3600. -/
theorem rate_limit_boundary {C : Type} (cap : EncCap C) (s : VaultState C)
    (a : Nat) (h : a = s.owner) :
    updateRateLimit s a 3601 = .error .InvalidInput ∧
    applyCall cap s (.setCooldown a 3601) = (s, some .InvalidInput) ∧
    updateRateLimit s a 3600 = .ok { s with rateLimitCooldown := 3600 } ∧
    (∀ v, (∃ s2, updateRateLimit s a v = .ok s2) ↔ v ≤ 3600) := by
  subst h
  have h3601 : updateRateLimit s s.owner 3601 = .error .InvalidInput := by
    unfold updateRateLimit; simp
  refine ⟨h3601, by simp [applyCall, h3601], by unfold updateRateLimit; simp, ?_⟩
  intro v
  constructor
  · rintro ⟨s2, hs2⟩
    exact (updateRateLimit_ok_spec s _ v s2 hs2).2.1
  · intro hv
    have hnl : ¬ 3600 < v := by omega
    unfold updateRateLimit
    simp [hnl]

/-- Witness for C8 on the fresh ledger, whose owner is address 1. -/
theorem rate_limit_boundary_witness :
    updateRateLimit scn0 deployerAddr 3601 = .error .InvalidInput ∧
    applyCall transparentCap scn0 (.setCooldown deployerAddr 3601) =
      (scn0, some .InvalidInput) ∧
    updateRateLimit scn0 deployerAddr 3600 =
      .ok { scn0 with rateLimitCooldown := 3600 } ∧
    (∀ v, (∃ s2, updateRateLimit scn0 deployerAddr v = .ok s2) ↔ v ≤ 3600) :=
  rate_limit_boundary transparentCap scn0 deployerAddr (by rfl)

/-- C9: a successful `upvote` modifies only the target record's
`encryptedVotes` and `voteCount` fields and the single upvote-relation
entry for (confession, voter); every other record field, every other
confession, every other upvote-relation entry, every `lastSubmissionTime`
entry, the counter, the cooldown, the pause flag and the owner are
unchanged. -/
theorem upvote_frame {C : Type} (cap : EncCap C) (s : VaultState C)
    (v id : Nat) (s2 : VaultState C) (h : upvote cap s v id = .ok s2) :
    (∃ c c', s.confessions id = some c ∧ s2.confessions id = some c' ∧
      c'.voteCount = c.voteCount + 1 ∧
      c'.encryptedVotes = cap.add c.encryptedVotes (cap.encrypt 1) ∧
      c'.message = c.message ∧ c'.createdAt = c.createdAt ∧
      c'.author = c.author ∧ c'.ipfsCID = c.ipfsCID ∧
      c'.«exists» = c.«exists») ∧
    s2.hasUpvoted id v = true ∧
    (∀ j, j ≠ id → s2.confessions j = s.confessions j) ∧
    (∀ j w, ¬(j = id ∧ w = v) → s2.hasUpvoted j w = s.hasUpvoted j w) ∧
    (∀ w, s2.lastSubmissionTime w = s.lastSubmissionTime w) ∧
    s2.confessionCount = s.confessionCount ∧
    s2.rateLimitCooldown = s.rateLimitCooldown ∧
    s2.paused = s.paused ∧
    s2.owner = s.owner := by
  obtain ⟨c, hc, hpause, hex, hnv, hlt, hs2⟩ := upvote_ok_spec cap s v id s2 h
  subst hs2
  refine ⟨⟨c, { c with
      encryptedVotes := cap.add c.encryptedVotes (cap.encrypt 1)
      voteCount := c.voteCount + 1 },
    hc, by simp, rfl, rfl, rfl, rfl, rfl, rfl, rfl⟩, by simp,
    ?_, ?_, fun w => rfl, rfl, rfl, rfl, rfl⟩
  · intro j hj
    simp only []
    rw [if_neg hj]
  · intro j w hjw
    simp only []
    rw [if_neg hjw]

/-- Witness for C9: bob's upvote of confession 1 in the concrete
scenario. -/
theorem upvote_frame_witness :
    (∃ c c', scn1.confessions 1 = some c ∧ scn2.confessions 1 = some c' ∧
      c'.voteCount = c.voteCount + 1 ∧
      c'.encryptedVotes =
        transparentCap.add c.encryptedVotes (transparentCap.encrypt 1) ∧
      c'.message = c.message ∧ c'.createdAt = c.createdAt ∧
      c'.author = c.author ∧ c'.ipfsCID = c.ipfsCID ∧
      c'.«exists» = c.«exists») ∧
    scn2.hasUpvoted 1 bob = true ∧
    (∀ j, j ≠ 1 → scn2.confessions j = scn1.confessions j) ∧
    (∀ j w, ¬(j = 1 ∧ w = bob) → scn2.hasUpvoted j w = scn1.hasUpvoted j w) ∧
    (∀ w, scn2.lastSubmissionTime w = scn1.lastSubmissionTime w) ∧
    scn2.confessionCount = scn1.confessionCount ∧
    scn2.rateLimitCooldown = scn1.rateLimitCooldown ∧
    scn2.paused = scn1.paused ∧
    scn2.owner = scn1.owner :=
  upvote_frame transparentCap scn1 bob 1 scn2 (by rfl)

/-- C10: the ledger imposes no self-vote restriction.  For a stored
confession, an `upvote` by the confession's own author succeeds exactly
when the generic preconditions hold — not paused, record exists, the
author has not yet upvoted it (and the `uint32` counter increment does
not overflow) — and on success the author's vote counts like any other
voter's: the record's public counter goes up by one and the author is
marked as having voted. -/
theorem upvote_no_self_vote_restriction {C : Type} (cap : EncCap C)
    (s : VaultState C) (id : Nat) (c : Confession C)
    (hc : s.confessions id = some c) :
    ((∃ s2, upvote cap s c.author id = .ok s2) ↔
      (s.paused = false ∧ c.«exists» = true ∧
       s.hasUpvoted id c.author = false ∧ c.voteCount + 1 < 2 ^ 32)) ∧
    (∀ s2, upvote cap s c.author id = .ok s2 →
      (s2.confessions id).map Confession.voteCount = some (c.voteCount + 1) ∧
      s2.hasUpvoted id c.author = true) := by
  constructor
  · constructor
    · rintro ⟨s2, hs2⟩
      obtain ⟨c0, hc0, hp, hex, hnv, hlt, -⟩ := upvote_ok_spec cap s _ id s2 hs2
      rw [hc] at hc0
      injection hc0 with hcc
      subst hcc
      exact ⟨hp, hex, hnv, hlt⟩
    · rintro ⟨hp, hex, hnv, hlt⟩
      have hof : ¬ (2 ^ 32 ≤ c.voteCount + 1) := by omega
      unfold upvote
      rw [hc, if_neg (by simp [hp])]
      dsimp only
      rw [if_neg (by simp [hex]), if_neg (by simp [hnv]), if_neg hof]
      exact ⟨_, rfl⟩
  · intro s2 hs2
    obtain ⟨c0, hc0, -, -, -, -, hs2'⟩ := upvote_ok_spec cap s _ id s2 hs2
    rw [hc] at hc0
    injection hc0 with hcc
    subst hcc
    subst hs2'
    constructor <;> simp

/-- Witness for C10: alice upvotes her own confession 1 right after
creating it; the success condition holds and her vote brings the counter
to one. -/
theorem upvote_no_self_vote_restriction_witness :
    ((∃ s2, upvote transparentCap scn1 alice 1 = .ok s2) ↔
      (scn1.paused = false ∧ (true : Bool) = true ∧
       scn1.hasUpvoted 1 alice = false ∧ 0 + 1 < 2 ^ 32)) ∧
    (∀ s2, upvote transparentCap scn1 alice 1 = .ok s2 →
      (s2.confessions 1).map Confession.voteCount = some (0 + 1) ∧
      s2.hasUpvoted 1 alice = true) :=
  upvote_no_self_vote_restriction transparentCap scn1 1
    { message := helloWorldTest
      encryptedVotes := 0
      voteCount := 0
      createdAt := 300
      author := alice
      ipfsCID := 0
      «exists» := true } (by rfl)
